import Mathlib

/-!
Verification development for the truck B-rep modeling kernel
(`truck-modeling/src/builder.rs` and `truck-modeling/src/sweep.rs`).

Conventions of the embedding:
* `f64` scalars are modelled as exact rationals (`ℚ`).  All comparisons that
  the dispatch code performs (`abs`, `<`, `/ 2`) are exact in `f64` for the
  inputs involved, so the rational model is faithful.
* The constant `std::f64::consts::PI` is the concrete double
  `884279719003555 / 2^48`; we use its exact rational value.
* Topological cells (vertex, edge, wire, face, shell, solid) are value types
  with a numeric id and an orientation bit, mirroring `truck_topology`.
  Fresh ids come from a counter threaded explicitly through every
  constructing function, mirroring the process-wide id counter.
* External geometry (curves, surfaces, matrices) is kept abstract: the sweep
  engine in the source is generic over payload types `P`, `C`, `S`, and the
  operations consumed from the geometry layer are passed as explicit
  function parameters.
-/

namespace Truck

/-- Points of 3-space, with rational coordinates standing for `f64`. -/
abbrev Pt3 : Type := ℚ × ℚ × ℚ

/-- Componentwise difference of two points (`pt1 - pt0`). -/
def pSub (p q : Pt3) : Pt3 := (p.1 - q.1, p.2.1 - q.2.1, p.2.2 - q.2.2)

/-- Negation of a vector, as in the expression `-axis` of `rsweep`. -/
def pNeg (p : Pt3) : Pt3 := (-p.1, -p.2.1, -p.2.2)

/-- Cross product of two vectors. -/
def cross (a b : Pt3) : Pt3 :=
  ( a.2.1 * b.2.2 - a.2.2 * b.2.1
  , a.2.2 * b.1 - a.1 * b.2.2
  , a.1 * b.2.1 - a.2.1 * b.1 )

/-- Squared euclidean magnitude of a vector. -/
def mag2 (a : Pt3) : ℚ := a.1 * a.1 + a.2.1 * a.2.1 + a.2.2 * a.2.2

/-- Modelled from the spec: the externally supplied tolerance of the
tolerance-based near-equality predicate (`truck_base`, not under `src/`). -/
def TOL : ℚ := 1 / 10000000

/-- Modelled from the spec: the tolerance-based smallness test on vectors
(`truck_base`, not under `src/`): a vector is "so small" when its magnitude
is below the tolerance. -/
def soSmall (a : Pt3) : Bool := mag2 a < TOL * TOL

/-- The exact rational value of the double `std::f64::consts::PI`. -/
def FPI : ℚ := 884279719003555 / 281474976710656

/-- The stage count chosen by `partial_rsweep` in `builder.rs`:
`division = 1` if `|angle| < π` else `2`. -/
def rdiv (angle : ℚ) : ℕ := if |angle| < FPI then 1 else 2

/-- The bundle of the five functions the sweep engine consumes
(`point_mapping`, `curve_mapping`, `surface_mapping`, `connect_points`,
`connect_curves`). -/
structure SwFns (P C S : Type) where
  fp : P → P
  fc : C → C
  fs : S → S
  cp : P → P → C
  cc : C → C → S

/-- The body of `partial_rsweep` from `builder.rs`, abstracted over the
element being swept: `msw` stands for `elem.multi_sweep` applied to the
five functions built from the per-stage angle, and `mk` builds those five
functions from `(origin, axis, stage angle)` exactly as the closures in
`partial_rsweep` do. -/
def rsweepPart {α P C S : Type} (msw : SwFns P C S → ℕ → α)
    (mk : Pt3 → Pt3 → ℚ → SwFns P C S) (origin axis : Pt3) (angle : ℚ) : α :=
  msw (mk origin axis (angle / (rdiv angle : ℚ))) (rdiv angle)

/-- The body of `whole_rsweep` from `builder.rs`: `elem.closed_sweep` with
two stages whose per-stage rotation is `π`. -/
def rsweepWhole {α P C S : Type} (csw : SwFns P C S → ℕ → α)
    (mk : Pt3 → Pt3 → ℚ → SwFns P C S) (origin axis : Pt3) : α :=
  csw (mk origin axis FPI) 2

/-- The dispatch of `rsweep` from `builder.rs`: partial sweep when
`|angle| < 2π`, otherwise a whole (closed) sweep, with the axis negated
when the angle is negative. -/
def rsweepFull {α P C S : Type} (msw csw : SwFns P C S → ℕ → α)
    (mk : Pt3 → Pt3 → ℚ → SwFns P C S) (origin axis : Pt3) (angle : ℚ) : α :=
  if |angle| < 2 * FPI then rsweepPart msw mk origin axis angle
  else if 0 < angle then rsweepWhole csw mk origin axis
  else rsweepWhole csw mk origin (pNeg axis)

/-- C1: `rsweep` dispatches on `|θ|`: below `π` a multi sweep with one
stage of `θ`; between `π` and `2π` a multi sweep with two stages of `θ/2`;
at `2π` and beyond a closed sweep with two stages of `π`, on the negated
axis when `θ` is negative. -/
theorem rsweep_dispatch {α P C S : Type} (msw csw : SwFns P C S → ℕ → α)
    (mk : Pt3 → Pt3 → ℚ → SwFns P C S) (o a : Pt3) (th : ℚ) :
    (|th| < FPI → rsweepFull msw csw mk o a th = msw (mk o a th) 1)
    ∧ (FPI ≤ |th| → |th| < 2 * FPI →
        rsweepFull msw csw mk o a th = msw (mk o a (th / 2)) 2)
    ∧ (2 * FPI ≤ |th| → 0 < th →
        rsweepFull msw csw mk o a th = csw (mk o a FPI) 2)
    ∧ (2 * FPI ≤ |th| → th < 0 →
        rsweepFull msw csw mk o a th = csw (mk o (pNeg a) FPI) 2) := by
  have hpi : (0:ℚ) < FPI := by norm_num [FPI]
  refine ⟨?_, ?_, ?_, ?_⟩
  · intro h1
    have h2 : |th| < 2 * FPI := lt_of_lt_of_le h1 (by linarith)
    simp only [rsweepFull, rsweepPart, rdiv, if_pos h1, if_pos h2,
      Nat.cast_one, div_one]
  · intro h1 h2
    have h1' : ¬ |th| < FPI := not_lt.mpr h1
    simp only [rsweepFull, rsweepPart, rdiv, if_pos h2, if_neg h1',
      Nat.cast_ofNat]
  · intro h1 h2
    have h2' : ¬ |th| < 2 * FPI := not_lt.mpr h1
    simp only [rsweepFull, rsweepWhole, if_neg h2', if_pos h2]
  · intro h1 h2
    have h2' : ¬ |th| < 2 * FPI := not_lt.mpr h1
    have h3 : ¬ 0 < th := not_lt.mpr (le_of_lt h2)
    simp only [rsweepFull, rsweepWhole, if_neg h2', if_neg h3]

/-- Witness for C1: at the concrete angle `θ = π` the dispatch chooses a
multi sweep with two stages of `π/2`. -/
theorem rsweep_dispatch_witness :
    rsweepFull (α := ℕ) (P := ℚ) (C := ℚ) (S := ℚ)
      (fun _ n => n) (fun _ n => n + 10)
      (fun _ _ _ => ⟨id, id, id, fun _ _ => 0, fun _ _ => 0⟩)
      (0, 0, 0) (1, 0, 0) FPI = 2 :=
  (rsweep_dispatch (fun _ n => n) (fun _ n => n + 10)
      (fun _ _ _ => ⟨id, id, id, fun _ _ => 0, fun _ _ => 0⟩)
      (0, 0, 0) (1, 0, 0) FPI).2.1 (le_abs_self FPI)
      (by rw [abs_of_pos (by norm_num [FPI] : (0:ℚ) < FPI)]; norm_num [FPI])

/-- A vertex: a point payload together with a unique id
(`truck_topology::Vertex`, modelled from the spec data model). -/
structure Vtx (P : Type) where
  id : ℕ
  pt : P
deriving DecidableEq

/-- An edge handle: two stored endpoint vertices, a stored curve, a unique
id and a sense bit (`truck_topology::Edge`, modelled from the spec data
model).  `v0`/`v1` are the stored (raw) front and back. -/
structure Edg (P C : Type) where
  id : ℕ
  v0 : Vtx P
  v1 : Vtx P
  crv : C
  ori : Bool
deriving DecidableEq

/-- The front vertex of an edge handle, in the handle sense. -/
def Edg.front {P C : Type} (e : Edg P C) : Vtx P := if e.ori then e.v0 else e.v1

/-- The back vertex of an edge handle, in the handle sense. -/
def Edg.back {P C : Type} (e : Edg P C) : Vtx P := if e.ori then e.v1 else e.v0

/-- The inverse of an edge handle: same id, flipped sense. -/
def Edg.inverse {P C : Type} (e : Edg P C) : Edg P C := { e with ori := !e.ori }

/-- The curve of an edge in the handle sense (`oriented_curve`); `cInv` is
the parameter-reversal operation of the external curve interface. -/
def Edg.orientedCrv {P C : Type} (cInv : C → C) (e : Edg P C) : C :=
  if e.ori then e.crv else cInv e.crv

/-- A wire: an ordered sequence of edges. -/
abbrev Wir (P C : Type) := List (Edg P C)

/-- A face handle: boundary wires, a stored surface, a unique id and a
sense bit (`truck_topology::Face`, modelled from the spec data model). -/
structure Fc (P C S : Type) where
  id : ℕ
  bnd : List (Wir P C)
  surf : S
  ori : Bool
deriving DecidableEq

/-- The inverse of a wire: each edge inverted, order reversed. -/
def wirInverse {P C : Type} (w : Wir P C) : Wir P C := (w.map Edg.inverse).reverse

/-- The inverse of a face handle: same id, flipped sense. -/
def Fc.inverse {P C S : Type} (f : Fc P C S) : Fc P C S := { f with ori := !f.ori }

/-- The boundary wires of a face in the handle sense (`Face::boundaries`). -/
def Fc.boundaries {P C S : Type} (f : Fc P C S) : List (Wir P C) :=
  if f.ori then f.bnd else f.bnd.map wirInverse

/-- The surface of a face in the handle sense (`oriented_surface`); `sInv`
is the parameter-swap operation of the external surface interface. -/
def Fc.orientedSurf {P C S : Type} (sInv : S → S) (f : Fc P C S) : S :=
  if f.ori then f.surf else sInv f.surf

/-- A shell: a collection of faces. -/
abbrev Shl (P C S : Type) := List (Fc P C S)

/-- A solid: a list of boundary shells. -/
structure Sld (P C S : Type) where
  bnds : List (Shl P C S)
deriving DecidableEq

/-- State of a connect operation: the fresh-id counter and the bridge-edge
memo table keyed by the ordered pair of endpoint vertex ids (spec §4.1). -/
structure CSt (P C : Type) where
  k : ℕ
  memo : List ((ℕ × ℕ) × Edg P C)

/-- Modelled from the spec: the memoized `connect_vertices` used inside the
connect primitives (`topo_impls`, not under `src/`).  The memo is looked up
before creating a bridge; a bridge stored for the reversed pair is reused
inverted, so that adjacent side faces share their common bridge edge with
the same id, as the identity-sharing invariant demands. -/
def bridgeEdge {P C : Type} (cp : P → P → C) (st : CSt P C) (a b : Vtx P) :
    Edg P C × CSt P C :=
  match st.memo.lookup (a.id, b.id) with
  | some e => (e, st)
  | none =>
    match st.memo.lookup (b.id, a.id) with
    | some e => (e.inverse, st)
    | none =>
      let e : Edg P C := ⟨st.k, a, b, cp a.pt b.pt, true⟩
      (e, ⟨st.k + 1, ((a.id, b.id), e) :: st.memo⟩)

/-- Modelled from the spec: `connect_edges` (`topo_impls`, not under
`src/`): a face with the single boundary wire
`[e0, bridge(e0.back, e1.back), e1.inverse, bridge(e1.front, e0.front)]`
and surface `cc (e0.oriented_curve) (e1.oriented_curve)`. -/
def connectEdges {P C S : Type} (cInv : C → C) (cp : P → P → C) (cc : C → C → S)
    (st : CSt P C) (e0 e1 : Edg P C) : Fc P C S × CSt P C :=
  let r1 := bridgeEdge cp st e0.back e1.back
  let r0 := bridgeEdge cp r1.2 e1.front e0.front
  (⟨r0.2.k, [[e0, r1.1, e1.inverse, r0.1]],
      cc (e0.orientedCrv cInv) (e1.orientedCrv cInv), true⟩,
    { r0.2 with k := r0.2.k + 1 })

/-- Modelled from the spec: the common core of `connect_wires` and
`connect_raw_wires` (`topo_impls`, not under `src/`): one face per edge
pair, with the bridge memo shared across the whole run so that adjacent
faces, and the wrap-around of a closed boundary, reuse bridge edges. -/
def connectCore {P C S : Type} (cInv : C → C) (cp : P → P → C) (cc : C → C → S) :
    CSt P C → List (Edg P C × Edg P C) → List (Fc P C S) × CSt P C
  | st, [] => ([], st)
  | st, p :: rest =>
    let r := connectEdges cInv cp cc st p.1 p.2
    let r2 := connectCore cInv cp cc r.2 rest
    (r.1 :: r2.1, r2.2)

/-- Modelled from the spec: `connect_wires` (`topo_impls`, not under
`src/`): pairs the edges of the two wires and connects them, with a memo
table local to this invocation. -/
def connectWires {P C S : Type} (cInv : C → C) (cp : P → P → C) (cc : C → C → S)
    (k : ℕ) (w0 w1 : Wir P C) : List (Fc P C S) × ℕ :=
  let r := connectCore cInv cp cc ⟨k, []⟩ (w0.zip w1)
  (r.1, r.2.k)

/-- State of a `mapped` traversal: the fresh-id counter and the memo tables
keeping vertex and edge identity sharing intact. -/
structure MSt (P C : Type) where
  k : ℕ
  vmemo : List (ℕ × Vtx P)
  ememo : List (ℕ × Edg P C)

/-- Modelled from the spec: `Vertex::mapped` with identity sharing
(`truck_topology`, not under `src/`). -/
def mappedVtx {P C : Type} (fp : P → P) (st : MSt P C) (v : Vtx P) :
    Vtx P × MSt P C :=
  match st.vmemo.lookup v.id with
  | some w => (w, st)
  | none =>
    let w : Vtx P := ⟨st.k, fp v.pt⟩
    (w, { st with k := st.k + 1, vmemo := (v.id, w) :: st.vmemo })

/-- Modelled from the spec: `Edge::mapped` with identity sharing
(`truck_topology`, not under `src/`).  The raw stored edge is mapped and
memoized; the returned handle carries the sense of the input handle. -/
def mappedEdg {P C : Type} (fp : P → P) (fc : C → C) (st : MSt P C)
    (e : Edg P C) : Edg P C × MSt P C :=
  match st.ememo.lookup e.id with
  | some d => ({ d with ori := e.ori }, st)
  | none =>
    let r0 := mappedVtx (C := C) fp st e.v0
    let r1 := mappedVtx (C := C) fp r0.2 e.v1
    let d : Edg P C := ⟨r1.2.k, r0.1, r1.1, fc e.crv, true⟩
    ({ d with ori := e.ori },
      { r1.2 with k := r1.2.k + 1, ememo := (e.id, d) :: r1.2.ememo })

/-- Modelled from the spec: `Wire::mapped` (`truck_topology`, not under
`src/`). -/
def mappedWir {P C : Type} (fp : P → P) (fc : C → C) :
    MSt P C → Wir P C → Wir P C × MSt P C
  | st, [] => ([], st)
  | st, e :: rest =>
    let r := mappedEdg fp fc st e
    let r2 := mappedWir fp fc r.2 rest
    (r.1 :: r2.1, r2.2)

/-- Modelled from the spec: the boundary traversal of `Face::mapped`
(`truck_topology`, not under `src/`): every boundary wire mapped with the
shared identity-sharing memo. -/
def mappedBnds {P C : Type} (fp : P → P) (fc : C → C) :
    MSt P C → List (Wir P C) → List (Wir P C) × MSt P C
  | st, [] => ([], st)
  | st, w :: rest =>
    let r := mappedWir fp fc st w
    let r2 := mappedBnds fp fc r.2 rest
    (r.1 :: r2.1, r2.2)

/-- Modelled from the spec: `Face::mapped` (`truck_topology`, not under
`src/`): boundaries mapped with shared memo, a fresh face id, the mapped
surface, and the sense of the input handle. -/
def mappedFc {P C S : Type} (fp : P → P) (fc : C → C) (fs : S → S)
    (st : MSt P C) (f : Fc P C S) : Fc P C S × MSt P C :=
  let r := mappedBnds fp fc st f.bnd
  (⟨r.2.k, r.1, fs f.surf, f.ori⟩, { r.2 with k := r.2.k + 1 })

/-- Modelled from the spec: the staged body of `multi_sweep` for a wire
(`topo_traits`, not under `src/`): each stage maps the current wire and
connects it to its image; stage outputs are concatenated in order. -/
def multiSweepGo {P C S : Type} (F : SwFns P C S) (cInv : C → C) :
    ℕ → ℕ → Wir P C → Shl P C S × ℕ
  | 0, k, _ => ([], k)
  | n + 1, k, w =>
    let r := mappedWir F.fp F.fc ⟨k, [], []⟩ w
    let r1 := connectWires cInv F.cp F.cc r.2.k w r.1
    let r2 := multiSweepGo F cInv n r1.2 r.1
    (r1.1 ++ r2.1, r2.2)

/-- Modelled from the spec: `multi_sweep` for a wire. -/
def multiSweepWire {P C S : Type} (F : SwFns P C S) (cInv : C → C)
    (n : ℕ) (k : ℕ) (w : Wir P C) : Shl P C S × ℕ :=
  multiSweepGo F cInv n k w

/-- Modelled from the spec: the staged body of `closed_sweep` for a wire
(`topo_traits`, not under `src/`): as `multi_sweep`, except that the
ceiling of the final stage is identified with the original floor `w0`. -/
def closedSweepGo {P C S : Type} (F : SwFns P C S) (cInv : C → C)
    (w0 : Wir P C) : ℕ → ℕ → Wir P C → Shl P C S × ℕ
  | 0, k, _ => ([], k)
  | 1, k, w => connectWires cInv F.cp F.cc k w w0
  | n + 2, k, w =>
    let r := mappedWir F.fp F.fc ⟨k, [], []⟩ w
    let r1 := connectWires cInv F.cp F.cc r.2.k w r.1
    let r2 := closedSweepGo F cInv w0 (n + 1) r1.2 r.1
    (r1.1 ++ r2.1, r2.2)

/-- Modelled from the spec: `closed_sweep` for a wire. -/
def closedSweepWire {P C S : Type} (F : SwFns P C S) (cInv : C → C)
    (n : ℕ) (k : ℕ) (w : Wir P C) : Shl P C S × ℕ :=
  closedSweepGo F cInv w n k w

/-- The `rsweep` builder applied to a wire: the dispatch of `builder.rs`
instantiated with the wire implementations of `multi_sweep` and
`closed_sweep`.  `mk` abstracts the closure construction of
`partial_rsweep`/`whole_rsweep` (rotation matrices, circle arcs and
revolution surfaces are external geometry). -/
def rsweepWire {P C S : Type} (mk : Pt3 → Pt3 → ℚ → SwFns P C S)
    (cInv : C → C) (k : ℕ) (origin axis : Pt3) (angle : ℚ) (w : Wir P C) :
    Shl P C S × ℕ :=
  rsweepFull (fun F n => multiSweepWire F cInv n k w)
    (fun F n => closedSweepWire F cInv n k w) mk origin axis angle

instance {P : Type} [Inhabited P] : Inhabited (Vtx P) := ⟨⟨0, default⟩⟩

instance {P C : Type} [Inhabited P] [Inhabited C] : Inhabited (Edg P C) :=
  ⟨⟨0, default, default, default, true⟩⟩

instance {P C S : Type} [Inhabited P] [Inhabited C] [Inhabited S] :
    Inhabited (Fc P C S) := ⟨⟨0, [], default, true⟩⟩

/-- Modelled from the spec: the operations the core consumes from the
external curve interface (§6 of the spec; `truck-geometry`, not under
`src/`): parameter reversal, parameter range, evaluation, and cut at a
parameter.  `cut c t` returns the part before `t` and the part after `t`
(the Rust method mutates the receiver to the former and returns the
latter). -/
structure CrvOps (C : Type) where
  inv : C → C
  paramRange : C → ℚ × ℚ
  subs : C → ℚ → Pt3
  cut : C → ℚ → C × C

/-- The single-edge split of `cone` (`builder.rs`): the edge is removed,
its raw curve is cut at the midpoint `t = (t0 + t1) / 2` of its parameter
range, a fresh vertex is created at the curve value there, and two fresh
forward edges from the original front through the fresh vertex to the
original back are pushed. -/
def coneSplit {C : Type} [Inhabited C] (ops : CrvOps C) (k : ℕ)
    (w : Wir Pt3 C) : Wir Pt3 C × ℕ :=
  let e := w.getLastD default
  let wrest := w.dropLast
  let v0 := e.front
  let v2 := e.back
  let c := e.crv
  let tr := ops.paramRange c
  let t := (tr.1 + tr.2) / 2
  let v1 : Vtx Pt3 := ⟨k, ops.subs c t⟩
  let c2 := ops.cut c t
  (wrest ++ [⟨k + 1, v0, v1, c2.1, true⟩, ⟨k + 2, v1, v2, c2.2, true⟩], k + 3)

/-- The wire preprocessing of `cone` (`builder.rs`): the single edge is
split when the wire has exactly one edge whose back vertex lies on the
axis (its chord direction crossed with the axis is tolerance-small). -/
def conePre {C : Type} [Inhabited C] (ops : CrvOps C) (k : ℕ)
    (w : Wir Pt3 C) (axis : Pt3) : Wir Pt3 C × ℕ :=
  let pt0 := (w.headD default).front.pt
  let pt1 := (w.getLastD default).back.pt
  if w.length = 1 ∧ soSmall (cross (pSub pt1 pt0) axis) then coneSplit ops k w
  else (w, k)

/-- The loop state of the apex-collapse loops of `cone`: the shell being
rewritten, the running apex edge, and the fresh-id counter. -/
structure LSt (P C S : Type) where
  shell : Shl P C S
  edge : Edg P C
  k : ℕ

/-- One iteration of the first apex-collapse loop of `cone`
(`builder.rs`): the face at `i * m` is replaced by a face whose single
boundary is the 3-edge wire `[edge, old_wire[1], new_edge]`, where the new
edge either wraps back to the slice-0 apex edge (closed sweep, last slice)
or is a fresh edge from `old_wire[2].front` to the front of the running
edge. -/
def coneStep1 {C S : Type} [Inhabited C] [Inhabited S] (ops : CrvOps C)
    (sInv : S → S) (closed : Bool) (m : ℕ) (st : LSt Pt3 C S) (i : ℕ) :
    LSt Pt3 C S :=
  let idx := i * m
  let face := st.shell.getD idx default
  let surface := face.orientedSurf sInv
  let oldw := face.boundaries.getLastD []
  let r :=
    if closed ∧ i + 1 = st.shell.length / 2 then
      ((((st.shell.getD 0 default).boundaries.headD []).headD default).inverse,
        st.k)
    else
      ((⟨st.k, (oldw.getD 2 default).front, st.edge.front,
          (oldw.getD 2 default).orientedCrv ops.inv, true⟩ : Edg Pt3 C),
        st.k + 1)
  let newWire : Wir Pt3 C := [st.edge, oldw.getD 1 default, r.1]
  { shell := st.shell.set idx (⟨r.2, [newWire], surface, true⟩ : Fc Pt3 C S),
    edge := r.1.inverse, k := r.2 + 1 }

/-- One iteration of the second apex-collapse loop of `cone`
(`builder.rs`), run when the back vertex lies on the axis: the face at
`(i + 1) * m - 1` is replaced by a face whose single boundary is the
3-edge wire `[edge, new_edge, old_wire[3]]`. -/
def coneStep2 {C S : Type} [Inhabited C] [Inhabited S] (ops : CrvOps C)
    (sInv : S → S) (closed : Bool) (m : ℕ) (st : LSt Pt3 C S) (i : ℕ) :
    LSt Pt3 C S :=
  let idx := (i + 1) * m - 1
  let face := st.shell.getD idx default
  let surface := face.orientedSurf sInv
  let oldw := face.boundaries.getLastD []
  let r :=
    if closed ∧ i + 1 = st.shell.length / m then
      ((((st.shell.getD (m - 1) default).boundaries.headD []).headD
          default).inverse, st.k)
    else
      ((⟨st.k, st.edge.back, (oldw.getD 2 default).back,
          (oldw.getD 2 default).orientedCrv ops.inv, true⟩ : Edg Pt3 C),
        st.k + 1)
  let newWire : Wir Pt3 C := [st.edge, r.1, oldw.getD 3 default]
  { shell := st.shell.set idx (⟨r.2, [newWire], surface, true⟩ : Fc Pt3 C S),
    edge := r.1.inverse, k := r.2 + 1 }

/-- The two apex-collapse loops of `cone` (`builder.rs`), applied to the
shell produced by `rsweep` (paired with the id counter): the first loop
always rewrites the slices at indices `i * m`; the second, run only when
the back vertex lies on the axis, rewrites the slices at indices
`(i + 1) * m - 1`. -/
def coneLoops {C S : Type} [Inhabited C] [Inhabited S] (ops : CrvOps C)
    (sInv : S → S) (closed pt1OnAxis : Bool) (m : ℕ) (rs : Shl Pt3 C S × ℕ) :
    Shl Pt3 C S × ℕ :=
  let st1 : LSt Pt3 C S :=
    ⟨rs.1, ((rs.1.headD default).boundaries.headD []).headD default, rs.2⟩
  let st2 := (List.range (rs.1.length / m)).foldl
    (coneStep1 ops sInv closed m) st1
  let st3 :=
    if pt1OnAxis then
      let st2b : LSt Pt3 C S :=
        ⟨st2.shell,
          ((st2.shell.getD (m - 1) default).boundaries.headD []).headD default,
          st2.k⟩
      (List.range (st2.shell.length / m)).foldl
        (coneStep2 ops sInv closed m) st2b
    else st2
  (st3.shell, st3.k)

/-- The `cone` builder (`builder.rs`): an empty wire yields an empty
shell; otherwise the wire is preprocessed, revolved by `rsweep` about the
axis through its front vertex, and the degenerate 4-edge slices at the
apexes are collapsed to 3-edge slices by `coneLoops`. -/
def coneWire {C S : Type} [Inhabited C] [Inhabited S] (ops : CrvOps C)
    (sInv : S → S) (mk : Pt3 → Pt3 → ℚ → SwFns Pt3 C S) (k : ℕ)
    (w : Wir Pt3 C) (axis : Pt3) (angle : ℚ) : Shl Pt3 C S × ℕ :=
  let closed := decide (2 * FPI ≤ |angle|)
  if w.isEmpty then ([], k) else
  let pt0 := (w.headD default).front.pt
  let pt1 := (w.getLastD default).back.pt
  let pt1OnAxis := soSmall (cross (pSub pt1 pt0) axis)
  let rw := conePre ops k w axis
  coneLoops ops sInv closed pt1OnAxis rw.1.length
    (rsweepWire mk ops.inv rw.2 pt0 axis angle rw.1)

/-- A face with a single boundary wire of exactly four edges, in the
forward sense — the shape of every face produced by the connect
primitives. -/
def faceB4 {P C S : Type} (f : Fc P C S) : Bool :=
  f.ori && (match f.bnd with
  | [b] => b.length == 4
  | _ => false)

/-- A face with a single boundary wire of exactly three edges, in the
forward sense — the shape of a collapsed apex slice of `cone`. -/
def faceB3 {P C S : Type} (f : Fc P C S) : Bool :=
  f.ori && (match f.bnd with
  | [b] => b.length == 3
  | _ => false)

theorem getD_set_same {α : Type _} (l : List α) (i : ℕ) (x d : α)
    (h : i < l.length) : (l.set i x).getD i d = x := by
  rw [List.getD_eq_getElem _ _ (by simpa)]
  exact List.getElem_set_self (by simpa)

theorem getD_set_other {α : Type _} (l : List α) (i j : ℕ) (x d : α)
    (h : i ≠ j) : (l.set i x).getD j d = l.getD j d := by
  rcases Nat.lt_or_ge j l.length with hj | hj
  · rw [List.getD_eq_getElem _ _ (by simpa), List.getD_eq_getElem _ _ hj]
    exact List.getElem_set_ne h _
  · rw [List.getD_eq_default _ _ (by simpa), List.getD_eq_default _ _ hj]

theorem connectEdges_B4 {P C S : Type} (cInv : C → C) (cp : P → P → C)
    (cc : C → C → S) (st : CSt P C) (e0 e1 : Edg P C) :
    faceB4 (connectEdges cInv cp cc st e0 e1).1 = true := rfl

theorem connectCore_length {P C S : Type} (cInv : C → C) (cp : P → P → C)
    (cc : C → C → S) :
    ∀ (pairs : List (Edg P C × Edg P C)) (st : CSt P C),
      ((connectCore (S := S) cInv cp cc st pairs).1).length = pairs.length
  | [], _ => rfl
  | p :: rest, st => by
    simp [connectCore, connectCore_length cInv cp cc rest]

theorem connectCore_B4 {P C S : Type} (cInv : C → C) (cp : P → P → C)
    (cc : C → C → S) :
    ∀ (pairs : List (Edg P C × Edg P C)) (st : CSt P C) (f : Fc P C S),
      f ∈ (connectCore cInv cp cc st pairs).1 → faceB4 f = true
  | p :: rest, st, f, hf => by
    simp only [connectCore, List.mem_cons] at hf
    rcases hf with hf | hf
    · rw [hf]; exact connectEdges_B4 cInv cp cc st p.1 p.2
    · exact connectCore_B4 cInv cp cc rest _ f hf

theorem connectWires_length {P C S : Type} (cInv : C → C) (cp : P → P → C)
    (cc : C → C → S) (k : ℕ) (w0 w1 : Wir P C) :
    ((connectWires (S := S) cInv cp cc k w0 w1).1).length
      = min w0.length w1.length := by
  simp [connectWires, connectCore_length, List.length_zip]

theorem connectWires_B4 {P C S : Type} (cInv : C → C) (cp : P → P → C)
    (cc : C → C → S) (k : ℕ) (w0 w1 : Wir P C) (f : Fc P C S)
    (hf : f ∈ (connectWires cInv cp cc k w0 w1).1) : faceB4 f = true :=
  connectCore_B4 cInv cp cc _ _ f hf

theorem mappedWir_length {P C : Type} (fp : P → P) (fc : C → C) :
    ∀ (w : Wir P C) (st : MSt P C), ((mappedWir fp fc st w).1).length = w.length
  | [], _ => rfl
  | e :: rest, st => by
    simp [mappedWir, mappedWir_length fp fc rest]

theorem multiSweepGo_length {P C S : Type} (F : SwFns P C S) (cInv : C → C) :
    ∀ (n k : ℕ) (w : Wir P C),
      ((multiSweepGo F cInv n k w).1).length = n * w.length := by
  intro n
  induction n with
  | zero => intro k w; simp [multiSweepGo]
  | succ n ih =>
    intro k w
    simp only [multiSweepGo, List.length_append, connectWires_length,
      mappedWir_length, min_self, ih]
    ring

theorem multiSweepGo_B4 {P C S : Type} (F : SwFns P C S) (cInv : C → C) :
    ∀ (n k : ℕ) (w : Wir P C) (f : Fc P C S),
      f ∈ (multiSweepGo F cInv n k w).1 → faceB4 f = true := by
  intro n
  induction n with
  | zero => intro k w f hf; simp [multiSweepGo] at hf
  | succ n ih =>
    intro k w f hf
    simp only [multiSweepGo, List.mem_append] at hf
    rcases hf with hf | hf
    · exact connectWires_B4 _ _ _ _ _ _ f hf
    · exact ih _ _ f hf

theorem closedSweepGo_length {P C S : Type} (F : SwFns P C S) (cInv : C → C)
    (w0 : Wir P C) :
    ∀ (n k : ℕ) (w : Wir P C), w.length = w0.length →
      ((closedSweepGo F cInv w0 n k w).1).length = n * w.length
  | 0, _, _, _ => by simp [closedSweepGo]
  | 1, k, w, h => by
    simp [closedSweepGo, connectWires_length, h, one_mul]
  | n + 2, k, w, h => by
    have hm : ((mappedWir F.fp F.fc ⟨k, [], []⟩ w).1).length = w.length :=
      mappedWir_length F.fp F.fc w _
    have ih := closedSweepGo_length F cInv w0 (n + 1)
      (connectWires cInv F.cp F.cc (mappedWir F.fp F.fc ⟨k, [], []⟩ w).2.k w
        (mappedWir F.fp F.fc ⟨k, [], []⟩ w).1).2
      (mappedWir F.fp F.fc ⟨k, [], []⟩ w).1 (by rw [hm, h])
    simp only [closedSweepGo, List.length_append, connectWires_length, hm,
      min_self, ih]
    ring

theorem closedSweepGo_B4 {P C S : Type} (F : SwFns P C S) (cInv : C → C)
    (w0 : Wir P C) :
    ∀ (n k : ℕ) (w : Wir P C) (f : Fc P C S),
      f ∈ (closedSweepGo F cInv w0 n k w).1 → faceB4 f = true
  | 0, _, _, f, hf => by simp [closedSweepGo] at hf
  | 1, k, w, f, hf => connectWires_B4 _ _ _ _ _ _ f hf
  | n + 2, k, w, f, hf => by
    simp only [closedSweepGo, List.mem_append] at hf
    rcases hf with hf | hf
    · exact connectWires_B4 _ _ _ _ _ _ f hf
    · exact closedSweepGo_B4 F cInv w0 (n + 1) _ _ f hf

theorem rdiv_of_closed (angle : ℚ) (h : 2 * FPI ≤ |angle|) : rdiv angle = 2 := by
  have hpi : (0 : ℚ) < FPI := by norm_num [FPI]
  unfold rdiv
  rw [if_neg]
  intro hlt
  linarith

theorem rsweepWire_length {P C S : Type} (mk : Pt3 → Pt3 → ℚ → SwFns P C S)
    (cInv : C → C) (k : ℕ) (o a : Pt3) (angle : ℚ) (w : Wir P C) :
    ((rsweepWire mk cInv k o a angle w).1).length = rdiv angle * w.length := by
  unfold rsweepWire rsweepFull rsweepPart rsweepWhole
  split
  · exact multiSweepGo_length _ _ _ _ _
  · next h =>
    have h2 : rdiv angle = 2 := rdiv_of_closed angle (not_lt.mp h)
    rw [h2]
    split
    · exact closedSweepGo_length _ _ _ 2 _ _ rfl
    · exact closedSweepGo_length _ _ _ 2 _ _ rfl

theorem rsweepWire_B4 {P C S : Type} (mk : Pt3 → Pt3 → ℚ → SwFns P C S)
    (cInv : C → C) (k : ℕ) (o a : Pt3) (angle : ℚ) (w : Wir P C)
    (f : Fc P C S) (hf : f ∈ (rsweepWire mk cInv k o a angle w).1) :
    faceB4 f = true := by
  unfold rsweepWire rsweepFull rsweepPart rsweepWhole at hf
  split at hf
  · exact multiSweepGo_B4 _ _ _ _ _ f hf
  · split at hf
    · exact closedSweepGo_B4 _ _ _ 2 _ _ f hf
    · exact closedSweepGo_B4 _ _ _ 2 _ _ f hf

theorem coneStep1_length {C S : Type} [Inhabited C] [Inhabited S]
    (ops : CrvOps C) (sInv : S → S) (closed : Bool) (m : ℕ)
    (st : LSt Pt3 C S) (i : ℕ) :
    ((coneStep1 ops sInv closed m st i).shell).length = st.shell.length := by
  simp [coneStep1]

theorem coneStep2_length {C S : Type} [Inhabited C] [Inhabited S]
    (ops : CrvOps C) (sInv : S → S) (closed : Bool) (m : ℕ)
    (st : LSt Pt3 C S) (i : ℕ) :
    ((coneStep2 ops sInv closed m st i).shell).length = st.shell.length := by
  simp [coneStep2]

theorem foldl_coneStep1_length {C S : Type} [Inhabited C] [Inhabited S]
    (ops : CrvOps C) (sInv : S → S) (closed : Bool) (m : ℕ) :
    ∀ (l : List ℕ) (st : LSt Pt3 C S),
      ((l.foldl (coneStep1 ops sInv closed m) st).shell).length
        = st.shell.length
  | [], _ => rfl
  | i :: rest, st => by
    rw [List.foldl_cons, foldl_coneStep1_length ops sInv closed m rest,
      coneStep1_length]

theorem foldl_coneStep2_length {C S : Type} [Inhabited C] [Inhabited S]
    (ops : CrvOps C) (sInv : S → S) (closed : Bool) (m : ℕ) :
    ∀ (l : List ℕ) (st : LSt Pt3 C S),
      ((l.foldl (coneStep2 ops sInv closed m) st).shell).length
        = st.shell.length
  | [], _ => rfl
  | i :: rest, st => by
    rw [List.foldl_cons, foldl_coneStep2_length ops sInv closed m rest,
      coneStep2_length]

theorem coneStep2_sets_B3 {C S : Type} [Inhabited C] [Inhabited S]
    (ops : CrvOps C) (sInv : S → S) (closed : Bool) (m : ℕ)
    (st : LSt Pt3 C S) (i : ℕ) (hlt : (i + 1) * m - 1 < st.shell.length) :
    faceB3 (((coneStep2 ops sInv closed m st i).shell).getD
      ((i + 1) * m - 1) default) = true := by
  simp only [coneStep2]
  rw [getD_set_same _ _ _ _ hlt]
  rfl

theorem coneStep2_getD_other {C S : Type} [Inhabited C] [Inhabited S]
    (ops : CrvOps C) (sInv : S → S) (closed : Bool) (m : ℕ)
    (st : LSt Pt3 C S) (i j : ℕ) (h : (i + 1) * m - 1 ≠ j) :
    ((coneStep2 ops sInv closed m st i).shell).getD j default
      = st.shell.getD j default := by
  simp only [coneStep2]
  rw [getD_set_other _ _ _ _ _ h]

theorem coneLoop2_B3 {C S : Type} [Inhabited C] [Inhabited S]
    (ops : CrvOps C) (sInv : S → S) (closed : Bool) (m : ℕ) (hm : 0 < m) :
    ∀ (t : ℕ) (st : LSt Pt3 C S), t * m ≤ st.shell.length →
      ∀ i < t,
        faceB3 ((((List.range t).foldl (coneStep2 ops sInv closed m)
          st).shell).getD ((i + 1) * m - 1) default) = true
  | 0, _, _, i, hi => absurd hi (Nat.not_lt_zero i)
  | t + 1, st, hlen, i, hi => by
    rw [List.range_succ, List.foldl_append, List.foldl_cons, List.foldl_nil]
    have hlen' :
        (((List.range t).foldl (coneStep2 ops sInv closed m) st).shell).length
          = st.shell.length := foldl_coneStep2_length ops sInv closed m _ st
    rcases Nat.lt_or_ge i t with hit | hit
    · have hmono : (i + 1) * m < (t + 1) * m :=
        (Nat.mul_lt_mul_right hm).mpr (by omega)
      have hge : m ≤ (i + 1) * m := Nat.le_mul_of_pos_left m (by omega)
      have hsub : (i + 1) * m - 1 < (t + 1) * m - 1 :=
        Nat.sub_lt_sub_right (le_trans hm hge) hmono
      have hne : (t + 1) * m - 1 ≠ (i + 1) * m - 1 := (Nat.ne_of_lt hsub).symm
      rw [coneStep2_getD_other ops sInv closed m _ t _ hne]
      exact coneLoop2_B3 ops sInv closed m hm t st
        (le_trans (Nat.mul_le_mul_right m (Nat.le_succ t)) hlen) i hit
    · have hit' : i = t := by omega
      subst hit'
      apply coneStep2_sets_B3
      rw [hlen']
      exact Nat.lt_of_lt_of_le
        (Nat.sub_lt (Nat.mul_pos (Nat.succ_pos i) hm) Nat.one_pos) hlen

theorem coneLoops_B3 {C S : Type} [Inhabited C] [Inhabited S]
    (ops : CrvOps C) (sInv : S → S) (closed : Bool) (m d : ℕ) (hm : 0 < m)
    (rs : Shl Pt3 C S × ℕ) (hlen : rs.1.length = d * m) :
    ∀ i < d, faceB3 ((coneLoops ops sInv closed true m rs).1.getD
      ((i + 1) * m - 1) default) = true := by
  intro i hi
  unfold coneLoops
  simp only [if_pos]
  have hl1 :
      (((List.range (rs.1.length / m)).foldl (coneStep1 ops sInv closed m)
        ⟨rs.1, ((rs.1.headD default).boundaries.headD []).headD default,
          rs.2⟩).shell).length = rs.1.length :=
    foldl_coneStep1_length ops sInv closed m _ _
  rw [show rs.1.length / m = d by rw [hlen, Nat.mul_div_cancel d hm]] at *
  apply coneLoop2_B3 ops sInv closed m hm
    (((List.range d).foldl (coneStep1 ops sInv closed m) _).shell.length / m)
    _ (by rw [hl1, hlen, Nat.mul_div_cancel d hm]) i
  rw [hl1, hlen, Nat.mul_div_cancel d hm]
  exact hi

theorem conePre_length_pos {C : Type} [Inhabited C] (ops : CrvOps C) (k : ℕ)
    (w : Wir Pt3 C) (axis : Pt3) (hw : w ≠ []) :
    0 < (conePre ops k w axis).1.length := by
  simp only [conePre]
  split
  · simp [coneSplit]
  · simpa [List.length_pos] using hw

/-- C2: for a nonempty wire whose back vertex lies on the rotation axis
(the tolerance test of `cone` holds), every back-apex slice of the cone —
the face at index `(i + 1) * m - 1` of each of the `division` angular
slices, `m` the length of the preprocessed wire — has a single boundary
wire of exactly three edges, while every face of a plain `rsweep` of the
same wire (from any id counter, about any origin) has a single boundary
wire of exactly four edges. -/
theorem cone_apex_three_rsweep_four {C S : Type} [Inhabited C] [Inhabited S]
    (ops : CrvOps C) (sInv : S → S) (mk : Pt3 → Pt3 → ℚ → SwFns Pt3 C S)
    (k : ℕ) (w : Wir Pt3 C) (axis : Pt3) (angle : ℚ) (hw : w ≠ [])
    (hax : soSmall (cross (pSub ((w.getLastD default).back.pt)
      ((w.headD default).front.pt)) axis) = true) :
    (∀ i < rdiv angle,
      faceB3 ((coneWire ops sInv mk k w axis angle).1.getD
        ((i + 1) * (conePre ops k w axis).1.length - 1) default) = true)
    ∧ ∀ (k2 : ℕ) (origin : Pt3) (f : Fc Pt3 C S),
        f ∈ (rsweepWire mk ops.inv k2 origin axis angle w).1 →
          faceB4 f = true := by
  constructor
  · intro i hi
    have hne : w.isEmpty = false := by simpa [List.isEmpty_iff] using hw
    unfold coneWire
    rw [hne]
    simp only [Bool.false_eq_true, if_false, hax]
    exact coneLoops_B3 ops sInv _ _ (rdiv angle)
      (conePre_length_pos ops k w axis hw) _
      (rsweepWire_length mk ops.inv (conePre ops k w axis).2
        ((w.headD default).front.pt) axis angle (conePre ops k w axis).1) i hi
  · intro k2 origin f hf
    exact rsweepWire_B4 mk ops.inv k2 origin axis angle w f hf

/-- A concrete instantiation of the external curve operations, used to
evaluate the generic development on explicit inputs. -/
def opsW : CrvOps ℚ :=
  ⟨id, fun _ => (0, 1), fun _ _ => ((0 : ℚ), (0 : ℚ), (0 : ℚ)),
    fun c _ => (c, c)⟩

/-- A concrete family of sweep functions, used to evaluate the generic
development on explicit inputs. -/
def mkW : Pt3 → Pt3 → ℚ → SwFns Pt3 ℚ ℚ :=
  fun _ _ _ => ⟨id, id, id, fun _ _ => 0, fun _ _ => 0⟩

/-- A concrete two-edge wire from `(0,1,0)` through `(0,0,1)` to the
origin, whose back vertex lies on the axis `(0,1,0)` through the front
vertex — the configuration of the cone example in `builder.rs`. -/
def wW : Wir Pt3 ℚ :=
  [⟨3, ⟨0, (0, 1, 0)⟩, ⟨1, (0, 0, 1)⟩, 0, true⟩,
   ⟨4, ⟨1, (0, 0, 1)⟩, ⟨2, (0, 0, 0)⟩, 0, true⟩]

/-- Witness for C2: on the concrete two-edge wire revolved by `7 ≥ 2π`
radians, the back-apex slice face of the cone has a 3-edge boundary. -/
theorem cone_apex_three_rsweep_four_witness :
    faceB3 ((coneWire opsW id mkW 100 wW (0, 1, 0) 7).1.getD
      ((0 + 1) * (conePre opsW 100 wW (0, 1, 0)).1.length - 1)
      default) = true :=
  (cone_apex_three_rsweep_four opsW id mkW 100 wW (0, 1, 0) 7
    (by simp [wW])
    (by norm_num [wW, soSmall, cross, pSub, mag2, TOL, Edg.back, Edg.front])).1
    0 (by norm_num [rdiv, FPI])

/-- C8: when the input wire of `cone` consists of a single edge whose back
vertex lies on the axis, the preprocessing replaces it by two fresh
forward edges: from the original front vertex to a fresh vertex placed at
the raw curve value at the midpoint `t = (t0 + t1) / 2` of its parameter
range carrying the front half of the cut curve, and from that fresh vertex
to the original back vertex carrying the back half. -/
theorem cone_split_single_edge {C : Type} [Inhabited C] (ops : CrvOps C)
    (k : ℕ) (e : Edg Pt3 C) (axis : Pt3)
    (hax : soSmall (cross (pSub e.back.pt e.front.pt) axis) = true) :
    conePre ops k [e] axis =
      ([⟨k + 1, e.front, ⟨k, ops.subs e.crv
          (((ops.paramRange e.crv).1 + (ops.paramRange e.crv).2) / 2)⟩,
          (ops.cut e.crv
            (((ops.paramRange e.crv).1 + (ops.paramRange e.crv).2) / 2)).1,
          true⟩,
        ⟨k + 2, ⟨k, ops.subs e.crv
          (((ops.paramRange e.crv).1 + (ops.paramRange e.crv).2) / 2)⟩,
          e.back,
          (ops.cut e.crv
            (((ops.paramRange e.crv).1 + (ops.paramRange e.crv).2) / 2)).2,
          true⟩], k + 3) := by
  simp only [conePre]
  rw [if_pos]
  · simp [coneSplit]
  · exact ⟨rfl, by simpa using hax⟩

/-- A concrete single edge from `(0,1,0)` down to the origin, with both
endpoints on the axis `(0,1,0)` through the front vertex. -/
def eW : Edg Pt3 ℚ := ⟨5, ⟨0, (0, 1, 0)⟩, ⟨1, (0, 0, 0)⟩, 7, true⟩

/-- Witness for C8: the concrete single-edge wire is split into the
two-edge wire through the fresh midpoint vertex. -/
theorem cone_split_single_edge_witness :
    conePre opsW 10 [eW] (0, 1, 0) =
      ([⟨11, ⟨0, (0, 1, 0)⟩, ⟨10, (0, 0, 0)⟩, 7, true⟩,
        ⟨12, ⟨10, (0, 0, 0)⟩, ⟨1, (0, 0, 0)⟩, 7, true⟩], 13) := by
  have h := cone_split_single_edge opsW 10 eW (0, 1, 0)
    (by norm_num [eW, soSmall, cross, pSub, mag2, TOL, Edg.back, Edg.front])
  rw [h]
  rfl

/-- C10: `cone` applied to the empty wire returns the empty shell for
every axis and every angle, before any vertex access, with no error and no
panic (the model function is total and takes the early-return branch). -/
theorem cone_empty_wire {C S : Type} [Inhabited C] [Inhabited S]
    (ops : CrvOps C) (sInv : S → S) (mk : Pt3 → Pt3 → ℚ → SwFns Pt3 C S)
    (k : ℕ) (axis : Pt3) (angle : ℚ) :
    coneWire ops sInv mk k ([] : Wir Pt3 C) axis angle = ([], k) := by
  simp [coneWire]

/-- Componentwise sum of a point and a vector (`pt + vector`). -/
def pAdd (p q : Pt3) : Pt3 := (p.1 + q.1, p.2.1 + q.2.1, p.2.2 + q.2.2)

/-- Modelled from the spec: the curve variant set consumed by the builder
(`truck_modeling::Curve`, external geometry): a line with its two
endpoints, B-spline and NURBS curves represented by their (projected)
control points, and an opaque intersection curve. -/
inductive MCurve where
  | line : Pt3 → Pt3 → MCurve
  | bspline : List Pt3 → MCurve
  | nurbs : List Pt3 → MCurve
  | intersection : ℕ → MCurve
deriving DecidableEq

/-- Modelled from the spec: the surface variant set (`truck_modeling::Surface`,
external geometry): a plane through three points, homotopy surfaces
represented freely by the two curves they interpolate (B-spline and
rational), and a revolution surface represented freely by its curve,
origin and axis. -/
inductive MSurface where
  | plane : Pt3 → Pt3 → Pt3 → MSurface
  | bsplineSurf : List Pt3 → List Pt3 → MSurface
  | nurbsSurf : List Pt3 → List Pt3 → MSurface
  | revoluted : MCurve → Pt3 → Pt3 → MSurface
deriving DecidableEq

/-- Rust panics, kept distinct from returned error values: a panic is
divergence of the call, not a value handed back to the caller. -/
inductive RPanic where
  | notImplemented
  | notReachable
  | assertFail
deriving DecidableEq

/-- The outcome of a call that can panic: a value, or a panic. -/
inductive COut where
  | ok : MSurface → COut
  | panic : RPanic → COut
deriving DecidableEq

/-- Whether an outcome is a panic. -/
def COut.isPanic : COut → Bool
  | .panic _ => true
  | _ => false

/-- The point connector of `tsweep` (`builder.rs`):
`connect_pt(p0, p1) = Line(p0, p1)`. -/
def tsweepConnectPt (p0 p1 : Pt3) : MCurve := MCurve.line p0 p1

/-- The curve mapping of `tsweep` (`builder.rs`): transformation by the
translation `T(v)`.  Modelled from the spec for the external `transformed`
operations: each variant is translated within its own variant (a line by
its endpoints, spline variants by their control points, an intersection
curve opaquely). -/
def tsweepCurveMap (v : Pt3) : MCurve → MCurve
  | .line p q => .line (pAdd p v) (pAdd q v)
  | .bspline b => .bspline (b.map (fun p => pAdd p v))
  | .nurbs b => .nurbs (b.map (fun p => pAdd p v))
  | .intersection i => .intersection i

/-- The curve connector of `tsweep` (`builder.rs`): line and line give the
plane through `(line.0, line.1, line.0 + v)`; two B-splines give their
homotopy surface; two NURBS give the rational homotopy surface of their
non-rational projections; two intersection curves hit `unimplemented!()`
(a panic); every mixed pair hits `unreachable!()` (a panic). -/
def tsweepConnectCrv (v : Pt3) : MCurve → MCurve → COut
  | .line l0 l1, .line _ _ => .ok (.plane l0 l1 (pAdd l0 v))
  | .bspline b0, .bspline b1 => .ok (.bsplineSurf b0 b1)
  | .nurbs n0, .nurbs n1 => .ok (.nurbsSurf n0 n1)
  | .intersection _, .intersection _ => .panic .notImplemented
  | _, _ => .panic .notReachable

/-- Whether two curves carry the same variant tag. -/
def sameVariant : MCurve → MCurve → Bool
  | .line _ _, .line _ _ => true
  | .bspline _, .bspline _ => true
  | .nurbs _, .nurbs _ => true
  | .intersection _, .intersection _ => true
  | _, _ => false

/-- C5: `tsweep` with vector `v` connects points by the straight line, and
connects curves per variant: line and line to the plane through
`(front, back, front + v)` of the first line, B-splines to their homotopy
surface, NURBS to the rational homotopy surface of the non-rational
projections; the curve mapping preserves the variant, so the mixed
(unreachable) arms are never taken on a curve paired with its own
translate, the only pairs the sweep engine forms. -/
theorem tsweep_connectors (v : Pt3) :
    (∀ p0 p1, tsweepConnectPt p0 p1 = MCurve.line p0 p1)
    ∧ (∀ p q p2 q2, tsweepConnectCrv v (.line p q) (.line p2 q2)
        = .ok (.plane p q (pAdd p v)))
    ∧ (∀ b0 b1, tsweepConnectCrv v (.bspline b0) (.bspline b1)
        = .ok (.bsplineSurf b0 b1))
    ∧ (∀ n0 n1, tsweepConnectCrv v (.nurbs n0) (.nurbs n1)
        = .ok (.nurbsSurf n0 n1))
    ∧ (∀ c, sameVariant c (tsweepCurveMap v c) = true)
    ∧ (∀ c, tsweepConnectCrv v c (tsweepCurveMap v c)
        ≠ .panic .notReachable) := by
  refine ⟨fun _ _ => rfl, fun _ _ _ _ => rfl, fun _ _ => rfl, fun _ _ => rfl,
    ?_, ?_⟩
  · intro c; cases c <;> rfl
  · intro c; cases c <;> simp [tsweepCurveMap, tsweepConnectCrv]

/-- Witness for C5: the line case evaluated at concrete endpoints, the
second line being the translate of the first. -/
theorem tsweep_connectors_witness :
    tsweepConnectCrv (1, 0, 0) (.line (0, 0, 0) (1, 1, 1))
      (.line (1, 0, 0) (2, 1, 1))
      = .ok (.plane (0, 0, 0) (1, 1, 1) (pAdd (0, 0, 0) (1, 0, 0))) :=
  (tsweep_connectors (1, 0, 0)).2.1 (0, 0, 0) (1, 1, 1) (1, 0, 0) (2, 1, 1)

/-- Counterexample for C7: at a concrete pair of intersection curves the
curve connector of `tsweep` panics (the `unimplemented!` macro diverges);
no `Unimplemented` error value is returned. -/
theorem tsweep_intersection_cex :
    (tsweepConnectCrv (0, 0, 0) (.intersection 0) (.intersection 0)).isPanic
        = true
    ∧ tsweepConnectCrv (0, 0, 0) (.intersection 0) (.intersection 0)
        = .panic .notImplemented := ⟨rfl, rfl⟩

/-- C7 (amended): for every pair of intersection curves reaching the curve
connector of `tsweep`, the call panics with the unimplemented panic — a
diverging macro, not an error returned as a value. -/
theorem tsweep_intersection_panics (v : Pt3) (i j : ℕ) :
    tsweepConnectCrv v (.intersection i) (.intersection j)
      = .panic .notImplemented := rfl

/-- Dot product of two vectors. -/
def dotQ (a b : Pt3) : ℚ := a.1 * b.1 + a.2.1 * b.2.1 + a.2.2 * b.2.2

instance : Inhabited MCurve := ⟨MCurve.line (0, 0, 0) (0, 0, 0)⟩

instance : Inhabited MSurface := ⟨MSurface.plane (0, 0, 0) (0, 0, 0) (0, 0, 0)⟩

/-- Modelled from the spec: the parameter reversal of each curve variant
(`Curve::inverse`, external geometry). -/
def MCurve.inverse : MCurve → MCurve
  | .line p q => .line q p
  | .bspline b => .bspline b.reverse
  | .nurbs b => .nurbs b.reverse
  | .intersection i => .intersection i

/-- Modelled from the spec: the control points of the rational lift of a
curve (`lift_up().control_points()`, projected back to 3-space): a line
lifts to a degree-one curve on its endpoints; spline variants carry their
control points; an intersection curve has no control polygon in the
model. -/
def liftCtrl : MCurve → List Pt3
  | .line p q => [p, q]
  | .bspline b => b
  | .nurbs b => b
  | .intersection _ => []

/-- Modelled from the spec: the coplanarity test underlying
`geom_impls::attach_plane` (not under `src/`): take the first point as
base, the first independent direction, the first second independent
direction, and demand every point lie in their span; clouds with no such
frame (fewer than three independent points) are coplanar. -/
def coplanar : List Pt3 → Bool
  | [] => true
  | o :: rest =>
    match rest.find? (fun p => decide (p ≠ o)) with
    | none => true
    | some p =>
      match rest.find? (fun q =>
          decide (cross (pSub p o) (pSub q o) ≠ ((0 : ℚ), (0 : ℚ), (0 : ℚ)))) with
      | none => true
      | some q =>
        rest.all (fun r =>
          decide (dotQ (cross (pSub p o) (pSub q o)) (pSub r o) = 0))

/-- Modelled from the spec: the plane fitted to a coplanar cloud — its
origin and two spanning points, from the first point and the first two
independent points (degenerate clouds get a default frame). -/
def planeOf : List Pt3 → Pt3 × Pt3 × Pt3
  | [] => ((0, 0, 0), (1, 0, 0), (0, 1, 0))
  | o :: rest =>
    match rest.find? (fun p => decide (p ≠ o)) with
    | none => (o, pAdd o (1, 0, 0), pAdd o (0, 1, 0))
    | some p =>
      match rest.find? (fun q =>
          decide (cross (pSub p o) (pSub q o) ≠ ((0 : ℚ), (0 : ℚ), (0 : ℚ)))) with
      | none => (o, p, pAdd p (1, 0, 0))
      | some q => (o, p, q)

/-- Modelled from the spec: `geom_impls::attach_plane` (not under `src/`):
a plane when all points are coplanar, `None` otherwise. -/
def attachPlane (pts : List Pt3) : Option (Pt3 × Pt3 × Pt3) :=
  if coplanar pts then some (planeOf pts) else none

/-- Modelled from the spec: the topology error variants surfaced by the
builder (`truck_topology::errors`, not under `src/`). -/
inductive TErr where
  | notClosedWire
  | invalidShell
deriving DecidableEq

/-- Modelled from the spec: the builder error type
(`truck_modeling::errors::Error`, not under `src/`), a tagged union of the
wrapped topology errors and the plane-fit failure. -/
inductive MErr where
  | fromTopology : TErr → MErr
  | wireNotInOnePlane
deriving DecidableEq

/-- Modelled from the spec: wire closure — the back of the last edge is
the front of the first (vertex identity is id equality); an empty wire is
not closed. -/
def wireClosed {P C : Type} [Inhabited P] [Inhabited C] (w : Wir P C) : Bool :=
  match w with
  | [] => false
  | _ => (w.getLastD default).back.id == (w.headD default).front.id

/-- Modelled from the spec: `Face::try_new` (`truck_topology`, not under
`src/`): checks that every boundary wire is closed, and on success builds
a fresh forward face carrying the given wires and surface. -/
def faceTryNew {P C S : Type} [Inhabited P] [Inhabited C] (k : ℕ)
    (wires : List (Wir P C)) (surf : S) : Except MErr (Fc P C S) :=
  if wires.all (fun w => wireClosed w) then .ok ⟨k, wires, surf, true⟩
  else .error (.fromTopology .notClosedWire)

/-- The control points collected by `try_attach_plane` (`builder.rs`): the
control points of the rational lift of every oriented edge curve of every
wire, in order. -/
def ctrlPtsOf (wires : List (Wir Pt3 MCurve)) : List Pt3 :=
  (wires.flatten.map (fun e => liftCtrl (e.orientedCrv MCurve.inverse))).flatten

/-- The `try_attach_plane` builder (`builder.rs`): collect the control
points, fit a plane — signalling `WireNotInOnePlane` when the fit fails —
and only then construct the face, which checks wire closure. -/
def tryAttachPlane (k : ℕ) (wires : List (Wir Pt3 MCurve)) :
    Except MErr (Fc Pt3 MCurve MSurface) :=
  match attachPlane (ctrlPtsOf wires) with
  | none => .error .wireNotInOnePlane
  | some pl => faceTryNew k wires (MSurface.plane pl.1 pl.2.1 pl.2.2)

/-- C3 (amended): `try_attach_plane` tests coplanarity of the collected
control points first: whenever they do not fit one plane the call fails
with `WireNotInOnePlane` — even for an open wire; when they are coplanar,
an input containing an open wire fails with `NotClosedWire` from the face
constructor, and an input of closed wires yields a forward face carrying
the given wires whose surface is the fitted plane. -/
theorem try_attach_plane_cases (k : ℕ) (wires : List (Wir Pt3 MCurve)) :
    (coplanar (ctrlPtsOf wires) = false →
      tryAttachPlane k wires = .error .wireNotInOnePlane)
    ∧ (coplanar (ctrlPtsOf wires) = true →
        wires.all (fun w => wireClosed w) = false →
          tryAttachPlane k wires = .error (.fromTopology .notClosedWire))
    ∧ (coplanar (ctrlPtsOf wires) = true →
        wires.all (fun w => wireClosed w) = true →
          tryAttachPlane k wires = .ok ⟨k, wires,
            MSurface.plane (planeOf (ctrlPtsOf wires)).1
              (planeOf (ctrlPtsOf wires)).2.1
              (planeOf (ctrlPtsOf wires)).2.2, true⟩) := by
  refine ⟨?_, ?_, ?_⟩
  · intro hc
    simp [tryAttachPlane, attachPlane, hc]
  · intro hc ho
    simp [tryAttachPlane, attachPlane, hc, faceTryNew, ho]
  · intro hc ho
    simp [tryAttachPlane, attachPlane, hc, faceTryNew, ho]

/-- A concrete open wire of three line edges through `(0,0,0)`, `(1,0,0)`,
`(0,1,0)`, `(0,0,1)` — open, and with non-coplanar control points. -/
def wCex : Wir Pt3 MCurve :=
  [⟨10, ⟨0, (0, 0, 0)⟩, ⟨1, (1, 0, 0)⟩, .line (0, 0, 0) (1, 0, 0), true⟩,
   ⟨11, ⟨1, (1, 0, 0)⟩, ⟨2, (0, 1, 0)⟩, .line (1, 0, 0) (0, 1, 0), true⟩,
   ⟨12, ⟨2, (0, 1, 0)⟩, ⟨3, (0, 0, 1)⟩, .line (0, 1, 0) (0, 0, 1), true⟩]

/-- Counterexample for C3: on this single open wire, `try_attach_plane`
returns `WireNotInOnePlane` — the plane fit runs before the closure check —
and not `NotClosedWire` as the claim states for every open wire. -/
theorem try_attach_plane_open_cex :
    tryAttachPlane 50 [wCex] = .error .wireNotInOnePlane
    ∧ tryAttachPlane 50 [wCex] ≠ .error (.fromTopology .notClosedWire) := by
  have h : tryAttachPlane 50 [wCex] = .error .wireNotInOnePlane := by
    norm_num [tryAttachPlane, attachPlane, ctrlPtsOf, wCex, coplanar,
      liftCtrl, Edg.orientedCrv, cross, pSub, dotQ]
  exact ⟨h, by rw [h]; simp⟩

/-- A concrete open wire of two line edges through `(0,0,0)`, `(1,0,0)`,
`(0,1,0)` — open, with coplanar control points. -/
def wOpen : Wir Pt3 MCurve :=
  [⟨20, ⟨0, (0, 0, 0)⟩, ⟨1, (1, 0, 0)⟩, .line (0, 0, 0) (1, 0, 0), true⟩,
   ⟨21, ⟨1, (1, 0, 0)⟩, ⟨2, (0, 1, 0)⟩, .line (1, 0, 0) (0, 1, 0), true⟩]

/-- Witness for C3 (amended): the open wire with coplanar control points
fails with `NotClosedWire` from the face constructor. -/
theorem try_attach_plane_cases_witness :
    tryAttachPlane 60 [wOpen] = .error (.fromTopology .notClosedWire) :=
  (try_attach_plane_cases 60 [wOpen]).2.1
    (by norm_num [ctrlPtsOf, wOpen, coplanar, liftCtrl, Edg.orientedCrv,
      cross, pSub, dotQ])
    (by norm_num [wOpen, wireClosed, Edg.back, Edg.front])

theorem getLast_cons_concat {α : Type _} (a c : α) (X : List α) :
    (a :: (X ++ [c])).getLast? = some c := by
  rw [show a :: (X ++ [c]) = (a :: X) ++ [c] by simp, List.getLast?_concat]

theorem middle_cons_concat {α : Type _} (a c : α) (X : List α) :
    ((a :: (X ++ [c])).drop 1).dropLast = X := by
  rw [List.drop_one, List.tail_cons, List.dropLast_concat]

/-- Modelled from the spec: `connect_raw_wires` (`topo_impls`, not under
`src/`): as `connect_wires`, but consuming the flattened edge sequences of
arbitrary boundary collections; the shared memo makes the wrap-around
happen within each contiguous boundary. -/
def connectRawWires {P C S : Type} (cInv : C → C) (cp : P → P → C)
    (cc : C → C → S) (k : ℕ) (es0 es1 : List (Edg P C)) :
    List (Fc P C S) × ℕ :=
  let r := connectCore cInv cp cc ⟨k, []⟩ (es0.zip es1)
  (r.1, r.2.k)

/-- The `Sweep` implementation for a face (`sweep.rs`): the boundary shell
is the inverted input face, then the side faces connecting the flattened
oriented boundaries of the face to those of the mapped ceiling, then the
ceiling. -/
def sweepFace {P C S : Type} (F : SwFns P C S) (cInv : C → C) (k : ℕ)
    (f : Fc P C S) : Sld P C S × ℕ :=
  let r := mappedFc F.fp F.fc F.fs ⟨k, [], []⟩ f
  let r2 := connectRawWires cInv F.cp F.cc r.2.k
    f.boundaries.flatten r.1.boundaries.flatten
  (⟨[f.inverse :: r2.1 ++ [r.1]]⟩, r2.2)

/-- C4: sweeping a face yields a solid with exactly one boundary shell;
its first face is the inverse of the input face (same id, opposite
sense), its last face is the mapped ceiling, and the faces between them
are exactly the side faces connecting the flattened boundary wires of the
floor to those of the ceiling, in that order. -/
theorem sweep_face_structure {P C S : Type} (F : SwFns P C S) (cInv : C → C)
    (k : ℕ) (f : Fc P C S) :
    ∃ sh, (sweepFace F cInv k f).1.bnds = [sh]
      ∧ sh.head? = some f.inverse
      ∧ f.inverse.id = f.id ∧ f.inverse.ori = !f.ori
      ∧ sh.getLast? = some (mappedFc F.fp F.fc F.fs ⟨k, [], []⟩ f).1
      ∧ (sh.drop 1).dropLast
          = (connectRawWires cInv F.cp F.cc
              (mappedFc F.fp F.fc F.fs ⟨k, [], []⟩ f).2.k
              f.boundaries.flatten
              ((mappedFc F.fp F.fc F.fs ⟨k, [], []⟩ f).1.boundaries.flatten)).1
      := by
  refine ⟨_, rfl, rfl, rfl, rfl, ?_, ?_⟩
  · exact getLast_cons_concat _ _ _
  · exact middle_cons_concat _ _ _

/-- All oriented boundary edges of the faces of a shell, in face order. -/
def shellEdges {P C S : Type} (s : Shl P C S) : List (Edg P C) :=
  (s.map (fun f => f.boundaries.flatten)).flatten

/-- Modelled from the spec data model: the free (boundary) edges of a
shell — those whose id occurs exactly once among the face boundaries. -/
def freeEdges {P C S : Type} (s : Shl P C S) : List (Edg P C) :=
  (shellEdges s).filter
    (fun e => (shellEdges s).countP (fun d => d.id == e.id) == 1)

/-- Chain edges onto a wire by matching front to back, with fuel. -/
def chainInto {P C : Type} :
    ℕ → Wir P C → List (Edg P C) → Wir P C × List (Edg P C)
  | 0, acc, rest => (acc, rest)
  | fuel + 1, acc, rest =>
    match acc.getLast? with
    | none => (acc, rest)
    | some e =>
      match rest.find? (fun d => d.front.id == e.back.id) with
      | none => (acc, rest)
      | some d =>
        chainInto fuel (acc ++ [d]) (rest.eraseP (fun x => x.id == d.id))

/-- Group a list of free edges into chained wires, with fuel. -/
def chainAll {P C : Type} : ℕ → List (Edg P C) → List (Wir P C)
  | 0, _ => []
  | _, [] => []
  | fuel + 1, e :: rest =>
    let r := chainInto (rest.length + 1) [e] rest
    r.1 :: chainAll fuel r.2

/-- Modelled from the spec: `Shell::extract_boundaries` (`truck_topology`,
not under `src/`): the free edges of the shell chained into boundary
wires. -/
def extractBoundaries {P C S : Type} (s : Shl P C S) : List (Wir P C) :=
  chainAll (freeEdges s).length (freeEdges s)

/-- Modelled from the spec: shell closure — every edge id occurs exactly
twice among the face boundaries. -/
def shellClosed {P C S : Type} (s : Shl P C S) : Bool :=
  (shellEdges s).all
    (fun e => (shellEdges s).countP (fun d => d.id == e.id) == 2)

/-- Modelled from the spec: shell orientability — each edge id occurs at
most once in each sense among the face boundaries. -/
def shellOriented {P C S : Type} (s : Shl P C S) : Bool :=
  (shellEdges s).all
    (fun e =>
      (shellEdges s).countP (fun d => d.id == e.id && d.ori == e.ori) == 1)

/-- Modelled from the spec: the validation of `Solid::try_new`
(`truck_topology`, not under `src/`): every boundary shell must be closed
and oriented; otherwise the construction fails with a topology error. -/
def solidTryNew {P C S : Type} (shells : List (Shl P C S)) :
    Except TErr (Sld P C S) :=
  if shells.all (fun s => shellClosed s && shellOriented s) then
    .ok ⟨shells⟩
  else .error .invalidShell

/-- Modelled from the spec: `Shell::mapped` (`truck_topology`, not under
`src/`): every face mapped with one shared identity memo. -/
def mappedShlGo {P C S : Type} (fp : P → P) (fc : C → C) (fs : S → S) :
    MSt P C → Shl P C S → Shl P C S × MSt P C
  | st, [] => ([], st)
  | st, f :: rest =>
    let r := mappedFc fp fc fs st f
    let r2 := mappedShlGo fp fc fs r.2 rest
    (r.1 :: r2.1, r2.2)

/-- The per-component extrusion of the shell `Sweep` implementation
(`sweep.rs`): the inverted faces of the component, the side faces
connecting the flattened boundary wires of the component to those of its
mapped ceiling, and the ceiling faces, assembled by `Solid::try_new`. -/
def sweepComponent {P C S : Type} (F : SwFns P C S) (cInv : C → C) (k : ℕ)
    (shell : Shl P C S) : Except TErr (Sld P C S) × ℕ :=
  let r := mappedShlGo F.fp F.fc F.fs ⟨k, [], []⟩ shell
  let r2 := connectWires cInv F.cp F.cc r.2.k
    (extractBoundaries shell).flatten (extractBoundaries r.1).flatten
  (solidTryNew [shell.map Fc.inverse ++ r2.1 ++ r.1], r2.2)

/-- Whether two faces touch: their boundaries share an edge id or a
vertex id. -/
def facesTouch {P C S : Type} (f g : Fc P C S) : Bool :=
  f.boundaries.flatten.any (fun e =>
    g.boundaries.flatten.any (fun d =>
      d.id == e.id || d.v0.id == e.v0.id || d.v0.id == e.v1.id
        || d.v1.id == e.v0.id || d.v1.id == e.v1.id))

/-- Grow a connected component by absorbing touching faces, with fuel. -/
def growComp {P C S : Type} :
    ℕ → Shl P C S → Shl P C S → Shl P C S × Shl P C S
  | 0, comp, rest => (comp, rest)
  | fuel + 1, comp, rest =>
    match rest.find? (fun g => comp.any (fun f => facesTouch f g)) with
    | none => (comp, rest)
    | some g =>
      growComp fuel (comp ++ [g]) (rest.eraseP (fun x => x.id == g.id))

/-- Split a shell into maximal groups of touching faces, with fuel. -/
def componentsGo {P C S : Type} : ℕ → Shl P C S → List (Shl P C S)
  | 0, _ => []
  | _, [] => []
  | fuel + 1, f :: rest =>
    let r := growComp rest.length [f] rest
    r.1 :: componentsGo fuel r.2

/-- Modelled from the spec: `Shell::connected_components`
(`truck_topology`, not under `src/`): the faces grouped into maximal
adjacency-connected components. -/
def connectedComponents {P C S : Type} (s : Shl P C S) : List (Shl P C S) :=
  componentsGo s.length s

/-- The component loop of the shell `Sweep` implementation (`sweep.rs`):
each component is extruded in turn, threading the id counter. -/
def sweepShellGo {P C S : Type} (F : SwFns P C S) (cInv : C → C) :
    ℕ → List (Shl P C S) → List (Except TErr (Sld P C S)) × ℕ
  | k, [] => ([], k)
  | k, c :: rest =>
    let r := sweepComponent F cInv k c
    let r2 := sweepShellGo F cInv r.2 rest
    (r.1 :: r2.1, r2.2)

/-- The `Sweep` implementation for a shell (`sweep.rs`): the shell is
broken into connected components and each component is extruded to a
solid independently, each wrapped in its own result. -/
def sweepShell {P C S : Type} (F : SwFns P C S) (cInv : C → C) (k : ℕ)
    (s : Shl P C S) : List (Except TErr (Sld P C S)) × ℕ :=
  sweepShellGo F cInv k (connectedComponents s)

theorem sweepShellGo_spec {P C S : Type} (F : SwFns P C S) (cInv : C → C) :
    ∀ (cs : List (Shl P C S)) (k : ℕ),
      ((sweepShellGo F cInv k cs).1).length = cs.length
      ∧ ∃ ks : List ℕ, ks.length = cs.length
          ∧ (sweepShellGo F cInv k cs).1
            = List.zipWith (fun c kk => (sweepComponent F cInv kk c).1) cs ks
  | [], k => ⟨rfl, [], rfl, rfl⟩
  | c :: rest, k => by
    obtain ⟨hl, ks, hks, heq⟩ :=
      sweepShellGo_spec F cInv rest (sweepComponent F cInv k c).2
    refine ⟨by simp [sweepShellGo, hl], k :: ks, by simp [hks], ?_⟩
    simp [sweepShellGo, heq]

/-- C6: shell sweep returns exactly one result per connected component of
the input shell, and the sequence is the componentwise map of the
per-component extrusion (each element the extrusion of its own component
from the id counter reached after the earlier ones), so the failure of one
component is observable independently of the success of the others. -/
theorem sweep_shell_componentwise {P C S : Type} (F : SwFns P C S)
    (cInv : C → C) (k : ℕ) (s : Shl P C S) :
    ((sweepShell F cInv k s).1).length = (connectedComponents s).length
    ∧ ∃ ks : List ℕ, ks.length = (connectedComponents s).length
        ∧ (sweepShell F cInv k s).1
          = List.zipWith (fun c kk => (sweepComponent F cInv kk c).1)
              (connectedComponents s) ks :=
  sweepShellGo_spec F cInv (connectedComponents s) k

/-- The assertion of `rsweep` (`debug_assert!(axis.magnitude().near(&1.0))`)
expressed without the square root, on the squared magnitude: the magnitude
is within tolerance of 1 exactly when the squared magnitude lies strictly
between `(1 - TOL)^2` and `(1 + TOL)^2` (see `nearOne_iff_sqrt`). -/
def nearOne (s : ℚ) : Bool :=
  (1 - TOL) * (1 - TOL) < s && s < (1 + TOL) * (1 + TOL)

/-- The square-free formulation agrees with the assertion on the real
square root: `nearOne s` holds exactly when `|sqrt s - 1| < TOL`. -/
theorem nearOne_iff_sqrt (s : ℚ) :
    nearOne s = true ↔ |Real.sqrt (s : ℝ) - 1| < (TOL : ℝ) := by
  have ht : (0 : ℝ) < (TOL : ℝ) := by
    have h : (0 : ℚ) < TOL := by norm_num [TOL]
    exact_mod_cast h
  have ht1 : (TOL : ℝ) < 1 := by
    have h : TOL < (1 : ℚ) := by norm_num [TOL]
    exact_mod_cast h
  rw [nearOne, Bool.and_eq_true, decide_eq_true_eq, decide_eq_true_eq,
    abs_sub_lt_iff]
  have e1 : ((1 - TOL) * (1 - TOL) < s) ↔
      ((1 : ℝ) - (TOL : ℝ)) < Real.sqrt (s : ℝ) := by
    rw [Real.lt_sqrt (by linarith : (0 : ℝ) ≤ 1 - (TOL : ℝ)), pow_two]
    norm_cast
  have e2 : (s < (1 + TOL) * (1 + TOL)) ↔
      Real.sqrt (s : ℝ) < 1 + (TOL : ℝ) := by
    rw [Real.sqrt_lt' (by linarith : (0 : ℝ) < 1 + (TOL : ℝ)), pow_two]
    norm_cast
  constructor
  · rintro ⟨h1, h2⟩
    have g1 := e1.mp h1
    have g2 := e2.mp h2
    constructor <;> linarith
  · rintro ⟨h1, h2⟩
    exact ⟨e1.mpr (by linarith), e2.mpr (by linarith)⟩

/-- The `rsweep` entry guarded by its debug assertion (`builder.rs`): the
assertion on the axis magnitude fires before any sweep is dispatched; when
it passes, the dispatch proceeds unchanged. -/
def rsweepChecked {α P C S : Type} (msw csw : SwFns P C S → ℕ → α)
    (mk : Pt3 → Pt3 → ℚ → SwFns P C S) (origin axis : Pt3) (angle : ℚ) :
    Except RPanic α :=
  if nearOne (mag2 axis) then
    .ok (rsweepFull msw csw mk origin axis angle)
  else .error .assertFail

/-- C9: `rsweep` requires a normalized axis: when the axis magnitude is
not within tolerance of 1 the debug assertion panics before any sweep is
performed, and when it is — in particular for every exactly normalized
axis — the assertion passes and the sweep dispatch runs unchanged. -/
theorem rsweep_assert_axis {α P C S : Type} (msw csw : SwFns P C S → ℕ → α)
    (mk : Pt3 → Pt3 → ℚ → SwFns P C S) (o axis : Pt3) (th : ℚ) :
    (nearOne (mag2 axis) = false →
      rsweepChecked msw csw mk o axis th = .error .assertFail)
    ∧ (nearOne (mag2 axis) = true →
        rsweepChecked msw csw mk o axis th
          = .ok (rsweepFull msw csw mk o axis th)) := by
  constructor <;> intro h <;> simp [rsweepChecked, h]

/-- A concrete multi-sweep stand-in for the C9 witness. -/
def mswW : SwFns Pt3 ℚ ℚ → ℕ → ℕ := fun _ n => n

/-- A concrete closed-sweep stand-in for the C9 witness. -/
def cswW : SwFns Pt3 ℚ ℚ → ℕ → ℕ := fun _ n => n + 10

/-- Witness for C9: with the unit axis `(1,0,0)` the assertion passes and
the dispatch runs; with the non-normalized axis `(2,0,0)` the assertion
fires. -/
theorem rsweep_assert_axis_witness :
    rsweepChecked mswW cswW mkW (0, 0, 0) (1, 0, 0) 1
      = .ok (rsweepFull mswW cswW mkW (0, 0, 0) (1, 0, 0) 1)
    ∧ rsweepChecked mswW cswW mkW (0, 0, 0) (2, 0, 0) 1
      = .error .assertFail :=
  ⟨(rsweep_assert_axis mswW cswW mkW (0, 0, 0) (1, 0, 0) 1).2
      (by norm_num [nearOne, mag2, TOL]),
   (rsweep_assert_axis mswW cswW mkW (0, 0, 0) (2, 0, 0) 1).1
      (by norm_num [nearOne, mag2, TOL])⟩

end Truck
